import Mathlib

/-!
Verification of the gosynth FM synthesizer core.

The development shallowly embeds `pkg/synth/synth.go` and the parameter
adjustment logic of the TUI (`Model.Update` in `pkg/ui`).  Go `float64`
values are modelled as real numbers; values flowing through the audio
sample path, which can become NaN, are modelled as `Option ℝ` with `none`
standing for NaN.  This is faithful for this program because the only
producers of non-finite values here are division by zero and `math.Mod`
with a zero modulus, and every non-finite value that can arise is mapped
to NaN before it reaches a comparison: `math.Mod` sends every non-finite
first argument and every zero modulus to NaN, `math.Sin` sends non-finite
arguments to NaN, arithmetic on NaN gives NaN, and `SoftClip` returns a
NaN input unchanged (since `math.Abs(NaN) > 0.6` is false).
-/

namespace Gosynth

noncomputable section

/-- Constant `SampleRate` from synth.go. -/
def SampleRate : ℝ := 44100

/-- Constant `MinModFreq` from synth.go (initial minimum modulation frequency). -/
def MinModFreq : ℝ := 100.0

/-- Constant `MaxModFreq` from synth.go (initial maximum modulation frequency). -/
def MaxModFreq : ℝ := 600.0

/-- Constant `FreqSweepTime` from synth.go. -/
def FreqSweepTime : ℝ := 0.300

/-- Constant `ModulationIndex` from synth.go. -/
def ModulationIndex : ℝ := 0.5

/-- Constant `ClipThreshold` from synth.go: threshold where soft clipping begins. -/
def ClipThreshold : ℝ := 0.6

/-- Constant `ClipHardLimit` from synth.go: stated maximum amplitude after clipping. -/
def ClipHardLimit : ℝ := 0.85

/-- Constant `InitialVolume` from synth.go. -/
def InitialVolume : ℝ := 0.75

/-- Go float64 values on the audio path: `none` models NaN. -/
abbrev F := Option ℝ

/-- `SmoothValue` from synth.go: a parameter value with no smoothing. -/
@[ext]
structure SmoothValue where
  value : ℝ

/-- `SmoothValue.Set` stores the given value verbatim; there is no clamping. -/
def SmoothValue.Set (_sv : SmoothValue) (v : ℝ) : SmoothValue := ⟨v⟩

/-- `SmoothValue.Get` reads the stored value. -/
def SmoothValue.Get (sv : SmoothValue) : ℝ := sv.value

/-- The `Synth` state from synth.go.  The `stream`, `stopMIDI` and
`buffer` fields are omitted: the audio buffer is only an intermediate
store whose prefix is copied verbatim to the output slice by
`AudioCallback`, so the buffer-fill operation is modelled as returning
the list of produced samples directly. -/
@[ext]
structure Synth where
  CarrierFreq : SmoothValue
  MinModFreq : SmoothValue
  MaxModFreq : SmoothValue
  SweepTime : SmoothValue
  ModIndex : SmoothValue
  Volume : SmoothValue
  timeIndex : ℝ

/-- `NewSynth` from synth.go: the initial synthesizer state. -/
def NewSynth : Synth where
  CarrierFreq := ⟨440.0⟩
  MinModFreq := ⟨MinModFreq⟩
  MaxModFreq := ⟨MaxModFreq⟩
  SweepTime := ⟨FreqSweepTime⟩
  ModIndex := ⟨ModulationIndex⟩
  Volume := ⟨InitialVolume⟩
  timeIndex := 0

/-- `MIDINoteToFreq` from synth.go: equal-tempered tuning of a MIDI note
number (a `uint8`, modelled as `ℕ`). -/
def MIDINoteToFreq (note : ℕ) : ℝ :=
  440.0 * (2 : ℝ) ^ (((note : ℝ) - 69.0) / 12.0)

/-- Go's `math.Trunc` on finite values: rounding toward zero. -/
def trunc (x : ℝ) : ℝ := if 0 ≤ x then (⌊x⌋ : ℝ) else (⌈x⌉ : ℝ)

/-- Go's `math.Mod(x, y) = x - Trunc(x/y)*y` for finite `x`; a zero
modulus gives NaN (`none`). -/
def mathMod (x y : ℝ) : F :=
  if y = 0 then none else some (x - trunc (x / y) * y)

/-- Division as used in `CalculateModulatorFreq`.  For a zero divisor Go
produces ±Inf (or NaN for 0/0); in this program the quotient is only ever
consumed by multiplication followed by `math.Mod`, which maps every
non-finite argument to NaN, so the model collapses the zero-divisor case
to `none` directly. -/
def fdiv (x y : ℝ) : F :=
  if y = 0 then none else some (x / y)

/-- `Synth.CalculateModulatorFreq` from synth.go: the current modulator
frequency at time `t`, swept by wrapping `periods*freqRange` modulo
`freqRange`. -/
def Synth.CalculateModulatorFreq (s : Synth) (t : ℝ) : F :=
  let freqRange := s.MaxModFreq.Get - s.MinModFreq.Get
  (fdiv t s.SweepTime.Get).bind fun periods =>
    (mathMod (periods * freqRange) freqRange).bind fun freqIncrease =>
      some (s.MinModFreq.Get + freqIncrease)

/-- `SoftClip` from synth.go on finite (real) samples. -/
def SoftClip (sample : ℝ) : ℝ :=
  if |sample| > ClipThreshold then
    let excess := |sample| - ClipThreshold
    let compressionFactor := 1.0 - min 1.0 (excess / (ClipHardLimit - ClipThreshold))
    let sgn : ℝ := if sample < 0 then -1.0 else 1.0
    sgn * (ClipThreshold + excess * compressionFactor)
  else
    sample

/-- The loop body of `Synth.AudioCallback` from synth.go: the sample
generated at time `t`.  NaN propagation is faithful: a NaN modulator
frequency makes `modulator`, `sample` and the clipped, volume-scaled
result NaN (Go's `SoftClip` returns a NaN input unchanged because
`math.Abs(NaN) > ClipThreshold` is false). -/
def Synth.sampleAt (s : Synth) (t : ℝ) : F :=
  let carrier := Real.sin (2 * Real.pi * s.CarrierFreq.Get * t)
  (s.CalculateModulatorFreq t).bind fun modFreq =>
    let modulator := Real.sin (2 * Real.pi * modFreq * t)
    let sample := carrier * (1 + s.ModIndex.Get * modulator)
    some (SoftClip sample * s.Volume.Get)

/-- `Synth.AudioCallback` from synth.go on a buffer of length `n`:
computes the sample at `timeIndex + i/SampleRate` for each `i < n`
(written into `s.buffer` and copied to the output slice in Go), then
advances `timeIndex` by `n / SampleRate` exactly once.  The `float32`
narrowing of the stored samples is not modelled (it preserves NaN). -/
def Synth.AudioCallback (s : Synth) (n : ℕ) : Synth × List F :=
  ({ s with timeIndex := s.timeIndex + (n : ℝ) / SampleRate },
   (List.range n).map fun i : ℕ => s.sampleAt (s.timeIndex + (i : ℝ) / SampleRate))

/-- The MIDI note-on handler installed by `Synth.Start` in synth.go:
`s.CarrierFreq.Set(MIDINoteToFreq(key))`, with no clamping. -/
def Synth.noteOn (s : Synth) (key : ℕ) : Synth :=
  { s with CarrierFreq := s.CarrierFreq.Set (MIDINoteToFreq key) }

/-- The parameter adjustment keys handled by `Model.Update` in pkg/ui:
left/right on each of the six selectable parameters. -/
inductive UIOp
  | carrierLeft
  | carrierRight
  | minLeft
  | minRight
  | maxLeft
  | maxRight
  | sweepLeft
  | sweepRight
  | idxLeft
  | idxRight
  | volLeft
  | volRight

/-- One parameter adjustment from `Model.Update` in pkg/ui: each branch
mirrors the corresponding `m.synth.<param>.Set(math.Max/Min(...))` call. -/
def uiStep (s : Synth) (op : UIOp) : Synth :=
  match op with
  | .carrierLeft => { s with CarrierFreq := s.CarrierFreq.Set (max 20 (s.CarrierFreq.Get - 10)) }
  | .carrierRight => { s with CarrierFreq := s.CarrierFreq.Set (min 2000 (s.CarrierFreq.Get + 10)) }
  | .minLeft => { s with MinModFreq := s.MinModFreq.Set (max 20 (s.MinModFreq.Get - 10)) }
  | .minRight => { s with MinModFreq := s.MinModFreq.Set (min (s.MaxModFreq.Get - 10) (s.MinModFreq.Get + 10)) }
  | .maxLeft => { s with MaxModFreq := s.MaxModFreq.Set (max (s.MinModFreq.Get + 10) (s.MaxModFreq.Get - 10)) }
  | .maxRight => { s with MaxModFreq := s.MaxModFreq.Set (min 2000 (s.MaxModFreq.Get + 10)) }
  | .sweepLeft => { s with SweepTime := s.SweepTime.Set (max 0.01 (s.SweepTime.Get - 0.01)) }
  | .sweepRight => { s with SweepTime := s.SweepTime.Set (min 1.0 (s.SweepTime.Get + 0.01)) }
  | .idxLeft => { s with ModIndex := s.ModIndex.Set (max 0 (s.ModIndex.Get - 0.05)) }
  | .idxRight => { s with ModIndex := s.ModIndex.Set (min 1.0 (s.ModIndex.Get + 0.05)) }
  | .volLeft => { s with Volume := s.Volume.Set (max 0 (s.Volume.Get - 0.05)) }
  | .volRight => { s with Volume := s.Volume.Set (min 1.0 (s.Volume.Get + 0.05)) }

/-! Basic facts about `SoftClip`. -/

lemma softClip_of_abs_le {s : ℝ} (h : |s| ≤ ClipThreshold) : SoftClip s = s := by
  rw [SoftClip, if_neg (not_lt.mpr h)]

lemma softClip_pos_eq {s : ℝ} (h1 : ClipThreshold < s) :
    SoftClip s = ClipThreshold + (s - ClipThreshold) *
      (1.0 - min 1.0 ((s - ClipThreshold) / (ClipHardLimit - ClipThreshold))) := by
  have hs : (0:ℝ) < s := lt_trans (by norm_num [ClipThreshold]) h1
  rw [SoftClip, if_pos (by rw [abs_of_pos hs]; exact h1)]
  dsimp only
  rw [abs_of_pos hs, if_neg (not_lt.mpr hs.le)]
  ring

lemma softClip_neg (s : ℝ) : SoftClip (-s) = -SoftClip s := by
  unfold SoftClip
  rw [abs_neg]
  by_cases hc : |s| > ClipThreshold
  · rw [if_pos hc, if_pos hc]
    dsimp only
    rcases lt_trichotomy s 0 with h | h | h
    · rw [if_neg (by linarith), if_pos h]
      ring
    · exfalso
      rw [h, abs_zero] at hc
      norm_num [ClipThreshold] at hc
    · rw [if_pos (by linarith), if_neg (by linarith)]
      ring
  · rw [if_neg hc, if_neg hc]

lemma softClip_high {s : ℝ} (h : ClipHardLimit ≤ s) : SoftClip s = ClipThreshold := by
  have h1 : ClipThreshold < s := by
    rw [ClipThreshold]
    rw [ClipHardLimit] at h
    linarith
  rw [softClip_pos_eq h1]
  have hmin : min 1.0 ((s - ClipThreshold) / (ClipHardLimit - ClipThreshold)) = 1.0 := by
    apply min_eq_left
    rw [ClipThreshold, ClipHardLimit] at *
    rw [le_div_iff₀ (by norm_num)]
    linarith
  rw [hmin]
  ring

lemma softClip_mid {s : ℝ} (h1 : ClipThreshold < s) (h2 : s ≤ ClipHardLimit) :
    SoftClip s = 0.6 + (s - 0.6) * (1 - 4 * (s - 0.6)) := by
  rw [softClip_pos_eq h1]
  have hdiv : (s - ClipThreshold) / (ClipHardLimit - ClipThreshold) = 4 * (s - 0.6) := by
    rw [ClipThreshold, ClipHardLimit]
    ring_nf
  have hle : 4 * (s - 0.6) ≤ 1.0 := by
    rw [ClipHardLimit] at h2
    linarith
  rw [hdiv, min_eq_right hle, ClipThreshold]
  ring

lemma softClip_sign_threshold {s : ℝ} (h : ClipHardLimit ≤ |s|) :
    SoftClip s = (if s < 0 then -1 else 1) * ClipThreshold := by
  rcases le_or_lt 0 s with hs | hs
  · rw [abs_of_nonneg hs] at h
    rw [softClip_high h, if_neg (not_lt.mpr hs)]
    ring
  · rw [abs_of_neg hs] at h
    have : SoftClip (-(-s)) = -SoftClip (-s) := softClip_neg (-s)
    rw [neg_neg] at this
    rw [this, softClip_high h, if_pos hs]
    ring

lemma softClip_nonneg {s : ℝ} (h : 0 ≤ s) : 0 ≤ SoftClip s := by
  rcases le_or_lt s ClipThreshold with h1 | h1
  · rw [softClip_of_abs_le (by rw [abs_of_nonneg h]; exact h1)]
    exact h
  · rcases le_or_lt s ClipHardLimit with h2 | h2
    · rw [softClip_mid h1 h2]
      rw [ClipThreshold] at h1
      rw [ClipHardLimit] at h2
      nlinarith [mul_nonneg (by linarith : (0:ℝ) ≤ s - 0.6) (by linarith : (0:ℝ) ≤ 1 - 4 * (s - 0.6))]
    · rw [softClip_high h2.le]
      norm_num [ClipThreshold]

lemma softClip_le_peak {s : ℝ} (h : 0 ≤ s) : SoftClip s ≤ 0.6625 := by
  rcases le_or_lt s ClipThreshold with h1 | h1
  · rw [softClip_of_abs_le (by rw [abs_of_nonneg h]; exact h1)]
    rw [ClipThreshold] at h1
    linarith
  · rcases le_or_lt s ClipHardLimit with h2 | h2
    · rw [softClip_mid h1 h2]
      nlinarith [sq_nonneg (8 * (s - 0.6) - 1)]
    · rw [softClip_high h2.le]
      norm_num [ClipThreshold]

lemma softClip_abs_le_peak (s : ℝ) : |SoftClip s| ≤ 0.6625 := by
  rcases le_or_lt 0 s with hs | hs
  · rw [abs_of_nonneg (softClip_nonneg hs)]
    exact softClip_le_peak hs
  · have hodd : SoftClip (-(-s)) = -SoftClip (-s) := softClip_neg (-s)
    rw [neg_neg] at hodd
    rw [hodd, abs_neg, abs_of_nonneg (softClip_nonneg (by linarith))]
    exact softClip_le_peak (by linarith)

lemma softClip_strict_mono_low {x y : ℝ} (hx : 0.6 ≤ x) (hxy : x < y) (hy : y ≤ 0.725) :
    SoftClip x < SoftClip y := by
  have hy1 : ClipThreshold < y := by
    rw [ClipThreshold]
    linarith
  have hy2 : y ≤ ClipHardLimit := by
    rw [ClipHardLimit]
    linarith
  rw [softClip_mid hy1 hy2]
  rcases hx.eq_or_lt with rfl | hx1
  · rw [softClip_of_abs_le (by rw [ClipThreshold, abs_of_nonneg (by norm_num : (0:ℝ) ≤ 0.6)])]
    nlinarith [mul_pos (by linarith : (0:ℝ) < y - 0.6) (by linarith : (0:ℝ) < 1 - 4 * (y - 0.6))]
  · have hx2 : x ≤ ClipHardLimit := by
      rw [ClipHardLimit]
      linarith
    rw [softClip_mid (by rw [ClipThreshold]; exact hx1) hx2]
    nlinarith [mul_pos (sub_pos.mpr hxy)
      (by linarith : (0:ℝ) < 1 - 4 * ((x - 0.6) + (y - 0.6)))]

lemma softClip_strict_anti_high {x y : ℝ} (hx : 0.725 ≤ x) (hxy : x < y) (hy : y ≤ 0.85) :
    SoftClip y < SoftClip x := by
  have hx1 : ClipThreshold < x := by
    rw [ClipThreshold]
    linarith
  have hx2 : x ≤ ClipHardLimit := by
    rw [ClipHardLimit]
    linarith
  have hy1 : ClipThreshold < y := by
    rw [ClipThreshold]
    linarith
  have hy2 : y ≤ ClipHardLimit := by
    rw [ClipHardLimit]
    linarith
  rw [softClip_mid hx1 hx2, softClip_mid hy1 hy2]
  nlinarith [mul_pos (sub_pos.mpr hxy)
    (by linarith : (0:ℝ) < 4 * ((x - 0.6) + (y - 0.6)) - 1)]

/-- C2: for every real input, the magnitude of `SoftClip` stays below
`ClipHardLimit` (0.85), and inputs of magnitude at most `ClipThreshold`
(0.6) pass through unchanged. -/
theorem softClip_bounded_and_unity (s : ℝ) :
    |SoftClip s| ≤ ClipHardLimit ∧ (|s| ≤ ClipThreshold → SoftClip s = s) :=
  ⟨le_trans (softClip_abs_le_peak s) (by norm_num [ClipHardLimit]),
   fun h => softClip_of_abs_le h⟩

/-- Witness for C2 at the concrete inputs 2 and 0.25. -/
theorem softClip_bounded_and_unity_witness :
    |SoftClip 2| ≤ ClipHardLimit ∧ SoftClip 0.25 = 0.25 :=
  ⟨(softClip_bounded_and_unity 2).1,
   (softClip_bounded_and_unity 0.25).2
     (by rw [ClipThreshold, abs_of_nonneg (by norm_num : (0:ℝ) ≤ 0.25)]; norm_num)⟩

/-- C3 counterexample: at the input `ClipHardLimit` (0.85) the clipper
returns `ClipThreshold` (0.6), not `ClipHardLimit` as the claim states. -/
theorem softClip_at_hard_limit_counterexample :
    SoftClip ClipHardLimit = ClipThreshold ∧ ClipThreshold ≠ ClipHardLimit :=
  ⟨softClip_high le_rfl, by norm_num [ClipThreshold, ClipHardLimit]⟩

/-- C3 amended: when the excess reaches `ClipHardLimit - ClipThreshold`
(that is, at magnitude 0.85) and beyond, the compression factor is
clamped at 0 and the output saturates exactly at `ClipThreshold` (0.6),
not at `ClipHardLimit`. -/
theorem softClip_saturates_at_threshold {s : ℝ} (h : ClipHardLimit ≤ |s|) :
    SoftClip s = (if s < 0 then -1 else 1) * ClipThreshold :=
  softClip_sign_threshold h

/-- Witness for the amended C3 at the concrete input 1. -/
theorem softClip_saturates_at_threshold_witness :
    SoftClip 1 = (if (1:ℝ) < 0 then -1 else 1) * ClipThreshold :=
  softClip_saturates_at_threshold
    (by rw [ClipHardLimit, abs_of_nonneg (by norm_num : (0:ℝ) ≤ 1)]; norm_num)

/-- C10: inputs of magnitude at least 0.85 map to exactly sign times
`ClipThreshold` (0.6); on the clipping region the clipper is not
monotone: it rises strictly up to the peak value 0.6625 attained at
input magnitude 0.725 and then falls strictly back to 0.6 at 0.85. -/
theorem softClip_saturation_and_nonmonotone :
    (∀ s : ℝ, ClipHardLimit ≤ |s| → SoftClip s = (if s < 0 then -1 else 1) * ClipThreshold) ∧
    SoftClip 0.725 = 0.6625 ∧
    (∀ x y : ℝ, 0.6 ≤ x → x < y → y ≤ 0.725 → SoftClip x < SoftClip y) ∧
    (∀ x y : ℝ, 0.725 ≤ x → x < y → y ≤ 0.85 → SoftClip y < SoftClip x) ∧
    (∀ s : ℝ, |SoftClip s| ≤ 0.6625) := by
  refine ⟨fun s h => softClip_sign_threshold h, ?_,
    fun x y hx hxy hy => softClip_strict_mono_low hx hxy hy,
    fun x y hx hxy hy => softClip_strict_anti_high hx hxy hy,
    softClip_abs_le_peak⟩
  rw [softClip_mid (by norm_num [ClipThreshold]) (by norm_num [ClipHardLimit])]
  norm_num

/-- Witness for C10 at the concrete inputs -0.9, 0.65 vs 0.7 and 0.75
vs 0.8. -/
theorem softClip_saturation_and_nonmonotone_witness :
    SoftClip (-0.9) = (if (-0.9:ℝ) < 0 then -1 else 1) * ClipThreshold ∧
    SoftClip 0.65 < SoftClip 0.7 ∧ SoftClip 0.8 < SoftClip 0.75 := by
  obtain ⟨h1, _, h3, h4, _⟩ := softClip_saturation_and_nonmonotone
  refine ⟨h1 (-0.9) ?_, h3 0.65 0.7 (by norm_num) (by norm_num) (by norm_num),
    h4 0.75 0.8 (by norm_num) (by norm_num) (by norm_num)⟩
  rw [ClipHardLimit, abs_of_nonpos (by norm_num : (-0.9:ℝ) ≤ 0)]
  norm_num

/-! Facts about `MIDINoteToFreq` and the note-on path. -/

lemma midiNoteToFreq_strictMono {m n : ℕ} (h : m < n) :
    MIDINoteToFreq m < MIDINoteToFreq n := by
  unfold MIDINoteToFreq
  have hexp : ((m : ℝ) - 69.0) / 12.0 < ((n : ℝ) - 69.0) / 12.0 := by
    have : (m : ℝ) < (n : ℝ) := by exact_mod_cast h
    linarith
  have := Real.rpow_lt_rpow_of_exponent_lt (by norm_num : (1:ℝ) < 2) hexp
  linarith

/-- C8: `MIDINoteToFreq` realises equal-tempered tuning
`440 * 2 ^ ((note - 69) / 12)`; note 69 gives exactly 440, note 81
gives 880 (an octave up), and the map is strictly increasing in the
note number. -/
theorem midiNoteToFreq_spec :
    (∀ n : ℕ, n ≤ 127 → MIDINoteToFreq n = 440.0 * (2 : ℝ) ^ (((n : ℝ) - 69.0) / 12.0)) ∧
    MIDINoteToFreq 69 = 440 ∧ MIDINoteToFreq 81 = 880 ∧
    (∀ m n : ℕ, m < n → MIDINoteToFreq m < MIDINoteToFreq n) := by
  refine ⟨fun n _ => rfl, ?_, ?_, fun m n h => midiNoteToFreq_strictMono h⟩
  · unfold MIDINoteToFreq
    norm_num
  · unfold MIDINoteToFreq
    have h1 : (((81:ℕ) : ℝ) - 69.0) / 12.0 = 1 := by norm_num
    rw [h1, Real.rpow_one]
    norm_num

/-- Witness for C8 at the concrete notes 60, 69 and 81. -/
theorem midiNoteToFreq_spec_witness :
    MIDINoteToFreq 60 = 440.0 * (2 : ℝ) ^ ((((60:ℕ) : ℝ) - 69.0) / 12.0) ∧
    MIDINoteToFreq 69 = 440 ∧ MIDINoteToFreq 69 < MIDINoteToFreq 81 := by
  obtain ⟨h1, h2, _, h4⟩ := midiNoteToFreq_spec
  exact ⟨h1 60 (by norm_num), h2, h4 69 81 (by norm_num)⟩

/-- C4 counterexample: the note-on handler stores the raw
`MIDINoteToFreq` value with no clamping, so note 127 leaves the carrier
frequency above the documented maximum of 2000 Hz. -/
theorem noteOn_carrier_out_of_range :
    2000 < ((NewSynth.noteOn 127).CarrierFreq.Get : ℝ) := by
  have heq : ((NewSynth.noteOn 127).CarrierFreq.Get : ℝ) = MIDINoteToFreq 127 := rfl
  rw [heq]
  unfold MIDINoteToFreq
  have h16 : (2 : ℝ) ^ ((4:ℕ) : ℝ) ≤ (2 : ℝ) ^ ((((127:ℕ) : ℝ) - 69.0) / 12.0) := by
    apply Real.rpow_le_rpow_of_exponent_le (by norm_num)
    norm_num
  rw [Real.rpow_natCast] at h16
  norm_num at h16
  linarith

/-! Range invariants maintained by the UI parameter adjustments. -/

@[simp]
lemma SmoothValue.get_set (sv : SmoothValue) (v : ℝ) : (sv.Set v).Get = v := rfl

/-- The modulator range discipline enforced by `Model.Update`: the lower
bound stays at or above 20 Hz, at least 10 Hz below the upper bound,
and the upper bound stays at or below 2000 Hz. -/
def ModRangeOK (s : Synth) : Prop :=
  20 ≤ s.MinModFreq.Get ∧ s.MinModFreq.Get + 10 ≤ s.MaxModFreq.Get ∧
    s.MaxModFreq.Get ≤ 2000

/-- The documented ranges of the remaining parameters: carrier in
[20, 2000], sweep time in [0.01, 1], modulation index in [0, 1],
volume in [0, 1]. -/
def ParamRangesOK (s : Synth) : Prop :=
  20 ≤ s.CarrierFreq.Get ∧ s.CarrierFreq.Get ≤ 2000 ∧
  0.01 ≤ s.SweepTime.Get ∧ s.SweepTime.Get ≤ 1 ∧
  0 ≤ s.ModIndex.Get ∧ s.ModIndex.Get ≤ 1 ∧
  0 ≤ s.Volume.Get ∧ s.Volume.Get ≤ 1

lemma uiStep_modRange {s : Synth} (h : ModRangeOK s) (op : UIOp) :
    ModRangeOK (uiStep s op) := by
  obtain ⟨h1, h2, h3⟩ := h
  cases op <;> simp only [uiStep, ModRangeOK, SmoothValue.get_set]
  case minLeft =>
    refine ⟨le_max_left _ _, ?_, h3⟩
    have hm : max 20 (s.MinModFreq.Get - 10) ≤ s.MaxModFreq.Get - 10 :=
      max_le (by linarith) (by linarith)
    linarith
  case minRight =>
    refine ⟨le_min (by linarith) (by linarith), ?_, h3⟩
    have hm := min_le_left (s.MaxModFreq.Get - 10) (s.MinModFreq.Get + 10)
    linarith
  case maxLeft => exact ⟨h1, le_max_left _ _, max_le (by linarith) (by linarith)⟩
  case maxRight => exact ⟨h1, le_min (by linarith) (by linarith), min_le_left _ _⟩
  all_goals exact ⟨h1, h2, h3⟩

lemma uiStep_paramRanges {s : Synth} (h : ParamRangesOK s) (op : UIOp) :
    ParamRangesOK (uiStep s op) := by
  obtain ⟨h1, h2, h3, h4, h5, h6, h7, h8⟩ := h
  cases op <;> simp only [uiStep, ParamRangesOK, SmoothValue.get_set]
  case carrierLeft =>
    exact ⟨le_max_left _ _, max_le (by norm_num) (by linarith), h3, h4, h5, h6, h7, h8⟩
  case carrierRight =>
    exact ⟨le_min (by norm_num) (by linarith), min_le_left _ _, h3, h4, h5, h6, h7, h8⟩
  case sweepLeft =>
    exact ⟨h1, h2, le_max_left _ _, max_le (by norm_num) (by linarith), h5, h6, h7, h8⟩
  case sweepRight =>
    exact ⟨h1, h2, le_min (by norm_num) (by linarith),
      le_trans (min_le_left _ _) (by norm_num), h5, h6, h7, h8⟩
  case idxLeft =>
    exact ⟨h1, h2, h3, h4, le_max_left _ _, max_le (by norm_num) (by linarith), h7, h8⟩
  case idxRight =>
    exact ⟨h1, h2, h3, h4, le_min (by norm_num) (by linarith),
      le_trans (min_le_left _ _) (by norm_num), h7, h8⟩
  case volLeft =>
    exact ⟨h1, h2, h3, h4, h5, h6, le_max_left _ _, max_le (by norm_num) (by linarith)⟩
  case volRight =>
    exact ⟨h1, h2, h3, h4, h5, h6, le_min (by norm_num) (by linarith),
      le_trans (min_le_left _ _) (by norm_num)⟩
  all_goals exact ⟨h1, h2, h3, h4, h5, h6, h7, h8⟩

lemma foldl_uiStep_modRange {s : Synth} (h : ModRangeOK s) (ops : List UIOp) :
    ModRangeOK (ops.foldl uiStep s) := by
  induction ops generalizing s with
  | nil => exact h
  | cons op rest ih => exact ih (uiStep_modRange h op)

lemma foldl_uiStep_paramRanges {s : Synth} (h : ParamRangesOK s) (ops : List UIOp) :
    ParamRangesOK (ops.foldl uiStep s) := by
  induction ops generalizing s with
  | nil => exact h
  | cons op rest ih => exact ih (uiStep_paramRanges h op)

lemma modRange_newSynth : ModRangeOK NewSynth := by
  refine ⟨?_, ?_, ?_⟩ <;>
    norm_num [NewSynth, SmoothValue.Get, MinModFreq, MaxModFreq, ModRangeOK]

/-- C9: starting from the initial state (min 100, max 600), every
sequence of UI adjustment operations keeps the minimum modulator
frequency at least 10 Hz below the maximum; the range never inverts. -/
theorem uiSteps_preserve_mod_range (ops : List UIOp) :
    (ops.foldl uiStep NewSynth).MinModFreq.Get ≤
      (ops.foldl uiStep NewSynth).MaxModFreq.Get - 10 := by
  have h := foldl_uiStep_modRange modRange_newSynth ops
  linarith [h.2.1]

/-- C4 amended: after any sequence of UI adjustment operations from the
initial state, every parameter lies within its documented range (carrier
in [20, 2000], sweep time in [0.01, 1], modulation index in [0, 1],
volume in [0, 1]); the raw note-on path, by contrast, stores the
unclamped note frequency. -/
theorem uiSteps_param_ranges (ops : List UIOp) :
    ParamRangesOK (ops.foldl uiStep NewSynth) := by
  apply foldl_uiStep_paramRanges _ ops
  refine ⟨?_, ?_, ?_, ?_, ?_, ?_, ?_, ?_⟩ <;>
    norm_num [NewSynth, SmoothValue.Get, FreqSweepTime, ModulationIndex, InitialVolume,
      ParamRangesOK]

/-! Facts about `mathMod` and `CalculateModulatorFreq`. -/

lemma mathMod_eq_fract {x R : ℝ} (hx : 0 ≤ x) (hR : 0 < R) :
    mathMod x R = some (R * Int.fract (x / R)) := by
  rw [mathMod, if_neg hR.ne']
  congr 1
  rw [trunc, if_pos (div_nonneg hx hR.le), Int.fract]
  field_simp
  ring

lemma calcModFreq_unfold (s : Synth) (t : ℝ) (hP : s.SweepTime.Get ≠ 0) :
    s.CalculateModulatorFreq t =
      (mathMod (t / s.SweepTime.Get * (s.MaxModFreq.Get - s.MinModFreq.Get))
        (s.MaxModFreq.Get - s.MinModFreq.Get)).bind
        fun fi => some (s.MinModFreq.Get + fi) := by
  simp only [Synth.CalculateModulatorFreq, fdiv]
  rw [if_neg hP]
  rfl

lemma calcModFreq_none_of_zero_range {s : Synth} (hP : s.SweepTime.Get ≠ 0)
    (hR : s.MaxModFreq.Get - s.MinModFreq.Get = 0) (t : ℝ) :
    s.CalculateModulatorFreq t = none := by
  rw [calcModFreq_unfold s t hP, hR, mathMod, if_pos rfl]
  rfl

lemma calcModFreq_some {s : Synth} (t : ℝ) (hP : 0 < s.SweepTime.Get)
    (hR : 0 < s.MaxModFreq.Get - s.MinModFreq.Get) (ht : 0 ≤ t) :
    s.CalculateModulatorFreq t =
      some (s.MinModFreq.Get +
        (s.MaxModFreq.Get - s.MinModFreq.Get) * Int.fract (t / s.SweepTime.Get)) := by
  rw [calcModFreq_unfold s t hP.ne']
  have hx : 0 ≤ t / s.SweepTime.Get * (s.MaxModFreq.Get - s.MinModFreq.Get) :=
    mul_nonneg (div_nonneg ht hP.le) hR.le
  rw [mathMod_eq_fract hx hR]
  have harg : t / s.SweepTime.Get * (s.MaxModFreq.Get - s.MinModFreq.Get) /
      (s.MaxModFreq.Get - s.MinModFreq.Get) = t / s.SweepTime.Get := by
    field_simp
    ring
  rw [harg]
  rfl

/-- C7 amended: for a non-degenerate sweep (max above min, positive
sweep period) and nonnegative time, the modulator frequency is a finite
value in [min, max) and is periodic with period `SweepTime`. -/
theorem calculateModulatorFreq_periodic_and_in_range (s : Synth) (t : ℝ)
    (hlt : s.MinModFreq.Get < s.MaxModFreq.Get) (hP : 0 < s.SweepTime.Get)
    (ht : 0 ≤ t) :
    (∃ v, s.CalculateModulatorFreq t = some v ∧
      s.MinModFreq.Get ≤ v ∧ v < s.MaxModFreq.Get) ∧
    s.CalculateModulatorFreq (t + s.SweepTime.Get) = s.CalculateModulatorFreq t := by
  have hR : 0 < s.MaxModFreq.Get - s.MinModFreq.Get := sub_pos.mpr hlt
  refine ⟨⟨_, calcModFreq_some t hP hR ht, ?_, ?_⟩, ?_⟩
  · linarith [mul_nonneg hR.le (Int.fract_nonneg (t / s.SweepTime.Get))]
  · have hlt1 := mul_lt_of_lt_one_right hR (Int.fract_lt_one (t / s.SweepTime.Get))
    linarith
  · rw [calcModFreq_some t hP hR ht,
      calcModFreq_some (t + s.SweepTime.Get) hP hR (by linarith)]
    have harg : (t + s.SweepTime.Get) / s.SweepTime.Get = t / s.SweepTime.Get + 1 := by
      field_simp
    rw [harg, Int.fract_add_one]

/-- Witness for the amended C7 at the initial state and time 0.15. -/
theorem calculateModulatorFreq_periodic_and_in_range_witness :
    (∃ v, NewSynth.CalculateModulatorFreq 0.15 = some v ∧
      NewSynth.MinModFreq.Get ≤ v ∧ v < NewSynth.MaxModFreq.Get) ∧
    NewSynth.CalculateModulatorFreq (0.15 + NewSynth.SweepTime.Get) =
      NewSynth.CalculateModulatorFreq 0.15 :=
  calculateModulatorFreq_periodic_and_in_range NewSynth 0.15
    (by norm_num [NewSynth, SmoothValue.Get, MinModFreq, MaxModFreq])
    (by norm_num [NewSynth, SmoothValue.Get, FreqSweepTime])
    (by norm_num)

/-- C7 counterexample: at the negative time -0.15 (initial parameters:
min 100, max 600, sweep period 0.3) the Go modulo keeps the sign of its
first argument, so the returned frequency is -150, far below the claimed
lower bound of 100. -/
theorem calculateModulatorFreq_negative_time_counterexample :
    NewSynth.CalculateModulatorFreq (-0.15) = some (-150) ∧
    (-150 : ℝ) < NewSynth.MinModFreq.Get := by
  refine ⟨?_, by norm_num [NewSynth, SmoothValue.Get, MinModFreq]⟩
  have hP : NewSynth.SweepTime.Get ≠ 0 := by
    norm_num [NewSynth, SmoothValue.Get, FreqSweepTime]
  rw [calcModFreq_unfold NewSynth (-0.15) hP]
  have hm : NewSynth.MinModFreq.Get = 100 := by
    norm_num [NewSynth, SmoothValue.Get, MinModFreq]
  have hM : NewSynth.MaxModFreq.Get = 600 := by
    norm_num [NewSynth, SmoothValue.Get, MaxModFreq]
  have hsw : NewSynth.SweepTime.Get = 0.3 := by
    norm_num [NewSynth, SmoothValue.Get, FreqSweepTime]
  rw [hm, hM, hsw]
  have hx : (-0.15 : ℝ) / 0.3 * (600 - 100) = -250 := by norm_num
  rw [hx]
  have hmod : mathMod (-250 : ℝ) (600 - 100 : ℝ) = some (-250) := by
    rw [mathMod, if_neg (by norm_num : ¬((600 - 100 : ℝ) = 0)), trunc,
      if_neg (by norm_num : ¬((0:ℝ) ≤ (-250 : ℝ) / (600 - 100)))]
    norm_num
  rw [hmod, Option.some_bind]
  norm_num

/-! NaN propagation through the buffer-fill operation, and volume. -/

lemma list_range_one : List.range 1 = [0] := rfl

/-- A state with a zero-width modulator range (min = max = 100),
reachable because `SmoothValue.Set` never clamps and UI edits are not
synchronized with the audio callback. -/
def DegenerateSynth : Synth :=
  { NewSynth with MaxModFreq := NewSynth.MaxModFreq.Set 100 }

/-- C1 evidence: with `maxModFreq == minModFreq` there is no defensive
guard: `CalculateModulatorFreq` evaluates `math.Mod(x, 0)`, which is
NaN (`none`), and the NaN sample is written to the output buffer by the
buffer-fill operation. -/
theorem zero_width_mod_range_nan_output :
    DegenerateSynth.CalculateModulatorFreq 0 = none ∧
    (DegenerateSynth.AudioCallback 1).2 = [none] := by
  have hP : DegenerateSynth.SweepTime.Get ≠ 0 := by
    norm_num [DegenerateSynth, NewSynth, SmoothValue.Get, FreqSweepTime]
  have hR0 : DegenerateSynth.MaxModFreq.Get - DegenerateSynth.MinModFreq.Get = 0 := by
    norm_num [DegenerateSynth, NewSynth, SmoothValue.Get, SmoothValue.Set, MinModFreq]
  refine ⟨calcModFreq_none_of_zero_range hP hR0 0, ?_⟩
  simp only [Synth.AudioCallback, list_range_one, List.map_cons, List.map_nil]
  simp only [Synth.sampleAt, calcModFreq_none_of_zero_range hP hR0, Option.none_bind]

/-- The degenerate state with the volume additionally set to 0. -/
def SilentDegenerateSynth : Synth :=
  { DegenerateSynth with Volume := DegenerateSynth.Volume.Set 0 }

/-- C6 counterexample: a state with volume 0 whose buffer-fill output is
a NaN sample (`none`), not 0.0 — the zero-width modulator range makes
the sample NaN before the volume multiplication, and NaN times 0 is
NaN. -/
theorem volume_zero_nan_counterexample :
    SilentDegenerateSynth.Volume.Get = 0 ∧
    (SilentDegenerateSynth.AudioCallback 1).2 = [none] ∧
    (none : F) ≠ some (0 : ℝ) := by
  have hP : SilentDegenerateSynth.SweepTime.Get ≠ 0 := by
    norm_num [SilentDegenerateSynth, DegenerateSynth, NewSynth, SmoothValue.Get,
      FreqSweepTime]
  have hR0 : SilentDegenerateSynth.MaxModFreq.Get -
      SilentDegenerateSynth.MinModFreq.Get = 0 := by
    norm_num [SilentDegenerateSynth, DegenerateSynth, NewSynth, SmoothValue.Get,
      SmoothValue.Set, MinModFreq]
  refine ⟨rfl, ?_, by simp⟩
  simp only [Synth.AudioCallback, list_range_one, List.map_cons, List.map_nil]
  simp only [Synth.sampleAt, calcModFreq_none_of_zero_range hP hR0, Option.none_bind]

lemma sampleAt_volume_zero {s : Synth} (hv : s.Volume.Get = 0)
    (hP : s.SweepTime.Get ≠ 0)
    (hRne : s.MaxModFreq.Get - s.MinModFreq.Get ≠ 0) (t : ℝ) :
    s.sampleAt t = some 0 := by
  simp only [Synth.sampleAt]
  rw [calcModFreq_unfold s t hP, mathMod, if_neg hRne]
  simp only [Option.some_bind]
  rw [hv, mul_zero]

/-- C6 amended: in every state with volume 0 whose modulator range is
not degenerate (max differs from min and the sweep period is nonzero),
every sample written by the buffer-fill operation is exactly 0.0,
regardless of the other parameters and the time cursor. -/
theorem audioCallback_volume_zero (s : Synth) (n : ℕ) (hv : s.Volume.Get = 0)
    (hR : s.MaxModFreq.Get ≠ s.MinModFreq.Get) (hP : s.SweepTime.Get ≠ 0) :
    ∀ x ∈ (s.AudioCallback n).2, x = some 0 := by
  intro x hx
  simp only [Synth.AudioCallback, List.mem_map] at hx
  obtain ⟨i, _, rfl⟩ := hx
  exact sampleAt_volume_zero hv hP (sub_ne_zero.mpr hR) _

/-- The initial state with the volume set to 0. -/
def SilentSynth : Synth := { NewSynth with Volume := NewSynth.Volume.Set 0 }

/-- Witness for the amended C6 on a concrete silent state and buffer. -/
theorem audioCallback_volume_zero_witness :
    SilentSynth.sampleAt (SilentSynth.timeIndex + (0 : ℕ) / SampleRate) = some 0 := by
  apply audioCallback_volume_zero SilentSynth 1 rfl
    (by norm_num [SilentSynth, NewSynth, SmoothValue.Get, SmoothValue.Set,
      MinModFreq, MaxModFreq])
    (by norm_num [SilentSynth, NewSynth, SmoothValue.Get, SmoothValue.Set,
      FreqSweepTime])
  simp only [Synth.AudioCallback, list_range_one, List.map_cons, List.map_nil,
    List.mem_singleton]

/-! Sample-accurate phase continuity across buffer boundaries. -/

lemma sampleAt_timeIndex_irrel (s : Synth) (y t : ℝ) :
    Synth.sampleAt { s with timeIndex := y } t = s.sampleAt t := rfl

/-- C5: for fixed parameters, two consecutive buffer fills of size n
produce exactly the samples of one fill of size 2n, and leave the synth
in the same state (in particular the same time cursor). -/
theorem audioCallback_split (s : Synth) (n : ℕ) :
    (s.AudioCallback n).2 ++ ((s.AudioCallback n).1.AudioCallback n).2 =
      (s.AudioCallback (2 * n)).2 ∧
    ((s.AudioCallback n).1.AudioCallback n).1 = (s.AudioCallback (2 * n)).1 := by
  constructor
  · simp only [Synth.AudioCallback, sampleAt_timeIndex_irrel]
    rw [two_mul, List.range_add n n, List.map_append, List.map_map]
    congr 1
    apply List.map_congr_left
    intro i _
    simp only [Function.comp_apply]
    congr 1
    push_cast
    ring
  · simp only [Synth.AudioCallback]
    congr 1
    push_cast
    ring

end

end Gosynth
